import Mathlib

/-!
# BeatGridMk1c grid controller

A shallow embedding of `src/BeatGridMk1c/GridController.cpp` and
`GridController.h`: the per-chip lookup tables, the single-chip driver
`Grid8x8`, the four-slot aggregator `GridController` and the 8x8 coordinate
tables, followed by theorems about them.

Conventions of the embedding.

* `uint8_t` and `uint16_t` values are natural numbers; a store into a
  `uint8_t` (`uint16_t`) cell is written with an explicit `% 256` (`% 65536`).
* A C array of length `n` is a function `Fin n → Nat`; `aget` and `aset` read
  and write it at a computed index.
* The global `Wire` object is the record `SoftWire`, threaded through the
  operations that use the bus; what `Wire.read()` yields is an argument.
* The driver objects live in a memory `h : Nat → Grid8x8`, indexed by address.
  `Grid8x8* matrices[4]` is `Fin 4 → Option Nat`: `none` is the null pointer,
  `some p` the address of the driver `h p`; slots may share a driver. The
  aggregator operations read and update the memory through these pointers.
  A member call through a null pointer has no defined result: the aggregator
  operations that make such a call return `Option`, with `none` for it.
-/

/-! ## Definitions -/

/-- The macro `_BV(bit)`, `(1 << (bit))`. The driver applies it to the low
nibble of a table entry only, which is at most 14 (`ledLUT_bit_le`,
`buttonLUT_bit_le`), so the shift stays inside a 16-bit `int`. -/
def _BV (bit : Nat) : Nat := 1 <<< bit

/-- Read of `a[i]`. Every index the driver computes comes from the high nibble
of a table entry and lies inside the array (`ledLUT_row_lt`,
`buttonLUT_row_lt`); outside it the read gives `0`. -/
def aget {n : Nat} (a : Fin n → Nat) (i : Nat) : Nat :=
  if h : i < n then a ⟨i, h⟩ else 0

/-- Store `a[i] = v`; outside the array nothing is stored (see `aget`). -/
def aset {n : Nat} (a : Fin n → Nat) (i : Nat) (v : Nat) : Fin n → Nat :=
  if h : i < n then Function.update a ⟨i, h⟩ v else a

/-- Table `ledLUT[16]`: LED number to HT16K33 memory position,
`(word << 4) | bit`. -/
def ledLUT : Fin 16 → Nat :=
  ![0x3A, 0x37, 0x35, 0x34,
    0x28, 0x29, 0x23, 0x24,
    0x16, 0x1B, 0x11, 0x10,
    0x0E, 0x0D, 0x0C, 0x02]

/-- Table `buttonLUT[16]`: button number to HT16K33 key memory position,
`(byte << 4) | bit`. -/
def buttonLUT : Fin 16 → Nat :=
  ![0x07, 0x04, 0x02, 0x22,
    0x05, 0x06, 0x00, 0x01,
    0x03, 0x10, 0x30, 0x21,
    0x13, 0x12, 0x11, 0x31]

/-- Table `i2xy64[]`: button index to `(column << 4) | row`. -/
def i2xy64 : Fin 64 → Nat :=
  ![0x00, 0x10, 0x20, 0x30, 0x01, 0x11, 0x21, 0x31,
    0x02, 0x12, 0x22, 0x32, 0x03, 0x13, 0x23, 0x33,
    0x40, 0x50, 0x60, 0x70, 0x41, 0x51, 0x61, 0x71,
    0x42, 0x52, 0x62, 0x72, 0x43, 0x53, 0x63, 0x73,
    0x04, 0x14, 0x24, 0x34, 0x05, 0x15, 0x25, 0x35,
    0x06, 0x16, 0x26, 0x36, 0x07, 0x17, 0x27, 0x37,
    0x44, 0x54, 0x64, 0x74, 0x45, 0x55, 0x65, 0x75,
    0x46, 0x56, 0x66, 0x76, 0x47, 0x57, 0x67, 0x77]

/-- Table `xy2i64[8][8]`: `[row][col]` to button/LED index. -/
def xy2i64 : Fin 8 → Fin 8 → Nat :=
  ![![ 0,  1,  2,  3, 16, 17, 18, 19],
    ![ 4,  5,  6,  7, 20, 21, 22, 23],
    ![ 8,  9, 10, 11, 24, 25, 26, 27],
    ![12, 13, 14, 15, 28, 29, 30, 31],
    ![32, 33, 34, 35, 48, 49, 50, 51],
    ![36, 37, 38, 39, 52, 53, 54, 55],
    ![40, 41, 42, 43, 56, 57, 58, 59],
    ![44, 45, 46, 47, 60, 61, 62, 63]]

/-- A call made on the global `Wire` object that puts something on the bus. -/
inductive WireOp where
  | beginTransmission (addr : Nat)
  | write (b : Nat)
  | endTransmission
  | requestFrom (addr : Nat) (quantity : Nat)
  deriving DecidableEq

/-- The global `SoftWire Wire`: the bus calls made so far, oldest first. -/
structure SoftWire where
  log : List WireOp
  deriving DecidableEq

/-- Append calls to the log of the bus. -/
def SoftWire.emit (w : SoftWire) (ops : List WireOp) : SoftWire :=
  { log := w.log ++ ops }

/-- The data members of `class Grid8x8`: `uint16_t displaybuffer[8]`,
`uint8_t keys[6], lastkeys[6]` and `uint8_t i2c_addr`. -/
structure Grid8x8 where
  displaybuffer : Fin 8 → Nat
  keys : Fin 6 → Nat
  lastkeys : Fin 6 → Nat
  i2c_addr : Nat

/-- `Grid8x8::isKeyPressed(k)`. -/
def Grid8x8.isKeyPressed (m : Grid8x8) (k : Nat) : Bool :=
  if h : k > 15 then false
  else
    let k := buttonLUT ⟨k, by omega⟩
    aget m.keys (k >>> 4) &&& _BV (k &&& 0x0F) != 0

/-- `Grid8x8::wasKeyPressed(k)`. -/
def Grid8x8.wasKeyPressed (m : Grid8x8) (k : Nat) : Bool :=
  if h : k > 15 then false
  else
    let k := buttonLUT ⟨k, by omega⟩
    aget m.lastkeys (k >>> 4) &&& _BV (k &&& 0x0F) != 0

/-- `Grid8x8::justPressed(k)`: `isKeyPressed(k) & !wasKeyPressed(k)`. -/
def Grid8x8.justPressed (m : Grid8x8) (k : Nat) : Bool :=
  m.isKeyPressed k && !m.wasKeyPressed k

/-- `Grid8x8::justReleased(k)`: `!isKeyPressed(k) & wasKeyPressed(k)`. -/
def Grid8x8.justReleased (m : Grid8x8) (k : Nat) : Bool :=
  !m.isKeyPressed k && m.wasKeyPressed k

/-- `Grid8x8::isLED(x)`. -/
def Grid8x8.isLED (m : Grid8x8) (x : Nat) : Bool :=
  if h : x > 15 then false
  else
    let x := ledLUT ⟨x, by omega⟩
    decide (aget m.displaybuffer (x >>> 4) &&& _BV (x &&& 0x0F) > 0)

/-- `Grid8x8::setLED(x)`: `displaybuffer[x >> 4] |= _BV(x & 0x0F)`. -/
def Grid8x8.setLED (m : Grid8x8) (x : Nat) : Grid8x8 :=
  if h : x > 15 then m
  else
    let x := ledLUT ⟨x, by omega⟩
    let word := (aget m.displaybuffer (x >>> 4) ||| _BV (x &&& 0x0F)) % 65536
    { m with displaybuffer := aset m.displaybuffer (x >>> 4) word }

/-- `Grid8x8::clrLED(x)`: `displaybuffer[x >> 4] &= ~_BV(x & 0x0F)`. The
complement `~v` of a 16-bit pattern is `0xFFFF ^ v`. -/
def Grid8x8.clrLED (m : Grid8x8) (x : Nat) : Grid8x8 :=
  if h : x > 15 then m
  else
    let x := ledLUT ⟨x, by omega⟩
    let word := (aget m.displaybuffer (x >>> 4) &&& (0xFFFF ^^^ _BV (x &&& 0x0F))) % 65536
    { m with displaybuffer := aset m.displaybuffer (x >>> 4) word }

/-- `Grid8x8::readSwitches()`. The argument `r` gives the six values that
`Wire.read()` yields after `Wire.requestFrom(i2c_addr, 6)`; each is stored
into a `uint8_t`. The result is the returned flag, the driver and the bus. -/
def Grid8x8.readSwitches (m : Grid8x8) (w : SoftWire) (r : Fin 6 → Nat) :
    Bool × Grid8x8 × SoftWire :=
  -- memcpy(lastkeys, keys, sizeof(keys))
  let lastkeys := m.keys
  let w := w.emit [.beginTransmission m.i2c_addr, .write 0x40, .endTransmission,
                   .requestFrom m.i2c_addr 6]
  -- for (i = 0; i < 6; i++) keys[i] = Wire.read()
  let keys : Fin 6 → Nat := fun i => r i % 256
  -- for (i = 0; i < 6; i++) if (lastkeys[i] != keys[i]) return true; return false
  let changed := (List.finRange 6).any fun i => lastkeys i != keys i
  (changed, { m with keys := keys, lastkeys := lastkeys }, w)

/-- `Grid8x8::setBrightness(b)`. -/
def Grid8x8.setBrightness (m : Grid8x8) (w : SoftWire) (b : Nat) : SoftWire :=
  let b := if b > 15 then 15 else b
  w.emit [.beginTransmission m.i2c_addr, .write ((0xE0 ||| b) % 256), .endTransmission]

/-- `Grid8x8::blinkRate(b)`. -/
def Grid8x8.blinkRate (m : Grid8x8) (w : SoftWire) (b : Nat) : SoftWire :=
  let b := if b > 3 then 0 else b
  w.emit [.beginTransmission m.i2c_addr, .write ((0x80 ||| 0x01 ||| (b <<< 1)) % 256),
          .endTransmission]

/-- `Grid8x8::writeDisplay()`. -/
def Grid8x8.writeDisplay (m : Grid8x8) (w : SoftWire) : SoftWire :=
  let w := w.emit [.beginTransmission m.i2c_addr, .write 0x00]
  let w := (List.finRange 8).foldl
    (fun w i => w.emit [.write ((m.displaybuffer i &&& 0xFF) % 256),
                        .write ((m.displaybuffer i >>> 8) % 256)]) w
  w.emit [.endTransmission]

/-- `Grid8x8::clear()`: `memset(displaybuffer, 0, sizeof(displaybuffer))`. -/
def Grid8x8.clear (m : Grid8x8) : Grid8x8 :=
  { m with displaybuffer := fun _ => 0 }

/-- The data member `Grid8x8* matrices[4]` of `class GridController`: each
slot is the null pointer (`none`) or the address of a driver object. Two slots
may hold the same address. -/
structure GridController where
  matrices : Fin 4 → Option Nat

/-- `GridController::isKeyPressed(k)` in the memory `h`; `none` when
`matrices[k / 16]` is null (there is no null check before the member call). -/
def GridController.isKeyPressed (g : GridController) (h : Nat → Grid8x8) (k : Nat) :
    Option Bool :=
  if hk : k > 63 then some false
  else
    let matrix : Fin 4 := ⟨k / 16, by omega⟩
    let key := k % 16
    match g.matrices matrix with
    | none => none
    | some p => some ((h p).isKeyPressed key)

/-- `GridController::wasKeyPressed(k)`; `none` when `matrices[k / 16]` is null. -/
def GridController.wasKeyPressed (g : GridController) (h : Nat → Grid8x8) (k : Nat) :
    Option Bool :=
  if hk : k > 63 then some false
  else
    let matrix : Fin 4 := ⟨k / 16, by omega⟩
    let key := k % 16
    match g.matrices matrix with
    | none => none
    | some p => some ((h p).wasKeyPressed key)

/-- `GridController::justPressed(k)`: `isKeyPressed(k) & !wasKeyPressed(k)`. -/
def GridController.justPressed (g : GridController) (h : Nat → Grid8x8) (k : Nat) :
    Option Bool :=
  (g.isKeyPressed h k).bind fun a => (g.wasKeyPressed h k).map fun b => a && !b

/-- `GridController::justReleased(k)`: `!isKeyPressed(k) & wasKeyPressed(k)`. -/
def GridController.justReleased (g : GridController) (h : Nat → Grid8x8) (k : Nat) :
    Option Bool :=
  (g.isKeyPressed h k).bind fun a => (g.wasKeyPressed h k).map fun b => !a && b

/-- `GridController::isLED(x)`; `none` when `matrices[x / 16]` is null. -/
def GridController.isLED (g : GridController) (h : Nat → Grid8x8) (x : Nat) : Option Bool :=
  if hx : x > 63 then some false
  else
    let matrix : Fin 4 := ⟨x / 16, by omega⟩
    let led := x % 16
    match g.matrices matrix with
    | none => none
    | some p => some ((h p).isLED led)

/-- `GridController::setLED(x)`: the memory after `matrices[x / 16]->setLED(x % 16)`;
`none` when `matrices[x / 16]` is null. -/
def GridController.setLED (g : GridController) (h : Nat → Grid8x8) (x : Nat) :
    Option (Nat → Grid8x8) :=
  if hx : x > 63 then some h
  else
    let matrix : Fin 4 := ⟨x / 16, by omega⟩
    let led := x % 16
    match g.matrices matrix with
    | none => none
    | some p => some (Function.update h p ((h p).setLED led))

/-- `GridController::clrLED(x)`: the memory after `matrices[x / 16]->clrLED(x % 16)`;
`none` when `matrices[x / 16]` is null. -/
def GridController.clrLED (g : GridController) (h : Nat → Grid8x8) (x : Nat) :
    Option (Nat → Grid8x8) :=
  if hx : x > 63 then some h
  else
    let matrix : Fin 4 := ⟨x / 16, by omega⟩
    let led := x % 16
    match g.matrices matrix with
    | none => none
    | some p => some (Function.update h p ((h p).clrLED led))

/-- One iteration of the scan loops,
`if (matrices[i] != 0) changed = changed || matrices[i]->readSwitches();`
on the state `(changed, memory, bus)`. The operator `||` evaluates its right
operand only when `changed` is false. `rd a` gives the six values read from the
chip at bus address `a`. -/
def GridController.scanSlot (g : GridController) (rd : Nat → Fin 6 → Nat)
    (st : Bool × (Nat → Grid8x8) × SoftWire) (i : Fin 4) :
    Bool × (Nat → Grid8x8) × SoftWire :=
  match g.matrices i with
  | none => st
  | some p =>
    if st.1 then st
    else
      let res := (st.2.1 p).readSwitches st.2.2 (rd (st.2.1 p).i2c_addr)
      (res.1, Function.update st.2.1 p res.2.1, res.2.2)

/-- `GridController::readSwitches()`: the loop over `i = 0, 1, 2, 3`. -/
def GridController.readSwitches (g : GridController) (h : Nat → Grid8x8)
    (w : SoftWire) (rd : Nat → Fin 6 → Nat) : Bool × (Nat → Grid8x8) × SoftWire :=
  [0, 1, 2, 3].foldl (g.scanSlot rd) (false, h, w)

/-- `GridController::setBrightness(b)`. -/
def GridController.setBrightness (g : GridController) (h : Nat → Grid8x8) (w : SoftWire)
    (b : Nat) : SoftWire :=
  [0, 1, 2, 3].foldl
    (fun w (i : Fin 4) => match g.matrices i with
      | none => w
      | some p => (h p).setBrightness w b) w

/-- `GridController::blinkRate(b)`. -/
def GridController.blinkRate (g : GridController) (h : Nat → Grid8x8) (w : SoftWire)
    (b : Nat) : SoftWire :=
  [0, 1, 2, 3].foldl
    (fun w (i : Fin 4) => match g.matrices i with
      | none => w
      | some p => (h p).blinkRate w b) w

/-- `GridController::writeDisplay()`. -/
def GridController.writeDisplay (g : GridController) (h : Nat → Grid8x8) (w : SoftWire) :
    SoftWire :=
  [0, 1, 2, 3].foldl
    (fun w (i : Fin 4) => match g.matrices i with
      | none => w
      | some p => (h p).writeDisplay w) w

/-- `GridController::clear()`: the memory after the loop. -/
def GridController.clear (g : GridController) (h : Nat → Grid8x8) : Nat → Grid8x8 :=
  [0, 1, 2, 3].foldl
    (fun h (i : Fin 4) => match g.matrices i with
      | none => h
      | some p => Function.update h p (h p).clear) h

/-- `GridController::xy2i(x, y)`. Only `x` is range-checked; for `y > 7` the
lookup `xy2i64[y][x]` reads past the end of the table and the result is
undefined (`none`). -/
def GridController.xy2i (x y : Nat) : Option Nat :=
  if hx : x > 7 then some 255
  else if hy : y < 8 then some (xy2i64 ⟨y, hy⟩ ⟨x, by omega⟩)
  else none

/-- `GridController::i2xy(i, &x, &y)`: the pair written to `(*x, *y)`. -/
def GridController.i2xy (i : Nat) : Nat × Nat :=
  if h : i > 63 then (255, 255)
  else
    let xy := i2xy64 ⟨i, by omega⟩
    (xy >>> 4, xy &&& 15)

/-! ### Concrete states used to evaluate the definitions -/

/-- A driver at bus address `0x70` with all buffers zero. -/
def chipA : Grid8x8 :=
  { displaybuffer := fun _ => 0, keys := fun _ => 0, lastkeys := fun _ => 0, i2c_addr := 0x70 }

/-- A driver at bus address `0x71` whose current key buffer starts with `5`
and whose previous key buffer starts with `9`. -/
def chipB : Grid8x8 :=
  { displaybuffer := fun _ => 0, keys := ![5, 0, 0, 0, 0, 0], lastkeys := ![9, 0, 0, 0, 0, 0],
    i2c_addr := 0x71 }

/-- A memory with `chipA` at address 0 and `chipB` at address 1 (and at every
other address). -/
def memAB : Nat → Grid8x8 :=
  fun p => if p = 0 then chipA else chipB

/-- A memory with four drivers at addresses 0 to 3, each with the key buffers
of `chipB`, at bus addresses `0x70` to `0x73`. -/
def memFour : Nat → Grid8x8 :=
  fun p => { chipB with i2c_addr := 0x70 + p }

/-- The controller `GridController(&chipA, &chipB)` over `memAB`: slots 2 and 3
take the default argument `NULL`. -/
def twoChips : GridController :=
  { matrices := ![some 0, some 1, none, none] }

/-- The controller `GridController(&chipA)` over `memAB`: slots 1, 2 and 3 are
`NULL`. -/
def oneChip : GridController :=
  { matrices := ![some 0, none, none, none] }

/-- A controller whose four slots point to four different drivers. -/
def fourChips : GridController :=
  { matrices := ![some 0, some 1, some 2, some 3] }

/-- The controller `GridController(&chipA, &chipA, &chipA, &chipA)`: the four
slots point to one and the same driver. -/
def sharedChip : GridController :=
  { matrices := ![some 0, some 0, some 0, some 0] }

/-- A bus on which the chip at `0x70` reports key bytes `1,0,0,0,0,0` and
every other chip reports `2,0,0,0,0,0`. -/
def busAB : Nat → Fin 6 → Nat :=
  fun a => if a = 0x70 then ![1, 0, 0, 0, 0, 0] else ![2, 0, 0, 0, 0, 0]

/-! ## Theorems -/

/-- C1: the coordinate tables are mutual inverses. For all `x, y` in `[0,7]`,
`xy2i(x,y)` yields an index `i` with `i2xy(i) = (x,y)`; and for every `i` in
`[0,63]`, `xy2i` applied to the pair produced by `i2xy(i)` returns `i`. -/
theorem xy2i_i2xy_roundtrip :
    (∀ x y : Nat, x ≤ 7 → y ≤ 7 →
      ∃ i, GridController.xy2i x y = some i ∧ GridController.i2xy i = (x, y)) ∧
    (∀ i : Nat, i ≤ 63 →
      GridController.xy2i (GridController.i2xy i).1 (GridController.i2xy i).2 = some i) := by
  constructor
  · intro x y hx hy
    interval_cases x <;> interval_cases y <;> exact ⟨_, rfl, rfl⟩
  · intro i hi
    interval_cases i <;> rfl

theorem xy2i_i2xy_roundtrip_witness :
    (∃ i, GridController.xy2i 5 2 = some i ∧ GridController.i2xy i = (5, 2)) ∧
    GridController.xy2i (GridController.i2xy 20).1 (GridController.i2xy 20).2 = some 20 :=
  ⟨xy2i_i2xy_roundtrip.1 5 2 (by decide) (by decide), xy2i_i2xy_roundtrip.2 20 (by decide)⟩

/-! ### Helper lemmas on arrays, bits and the tables -/

theorem aget_aset_same {n : Nat} (a : Fin n → Nat) (i v : Nat) (h : i < n) :
    aget (aset a i v) i = v := by
  simp [aget, aset, h]

theorem ledLUT_row_lt (i : Fin 16) : ledLUT i >>> 4 < 8 := by
  revert i; decide

theorem buttonLUT_row_lt (i : Fin 16) : buttonLUT i >>> 4 < 6 := by
  revert i; decide

theorem ledLUT_bit_le (i : Fin 16) : ledLUT i &&& 0x0F ≤ 14 := by
  revert i; decide

theorem buttonLUT_bit_le (i : Fin 16) : buttonLUT i &&& 0x0F ≤ 14 := by
  revert i; decide

theorem and_0F_lt (x : Nat) : x &&& 0x0F < 16 := by
  have : x &&& 0x0F ≤ 0x0F := Nat.and_le_right
  omega

theorem bit_set_pos (v b : Nat) (hb : b < 16) : 0 < ((v ||| _BV b) % 65536) &&& _BV b := by
  have h : (((v ||| _BV b) % 65536) &&& _BV b).testBit b = true := by
    have e : (65536 : Nat) = 2 ^ 16 := by norm_num
    rw [_BV, Nat.one_shiftLeft, e, Nat.testBit_and, Nat.testBit_mod_two_pow, Nat.testBit_or,
      Nat.testBit_two_pow_self]
    simp [hb]
  rcases Nat.eq_zero_or_pos (((v ||| _BV b) % 65536) &&& _BV b) with h0 | h0
  · rw [h0] at h; simp at h
  · exact h0

theorem bit_clr_zero (v b : Nat) (hb : b < 16) :
    ((v &&& (0xFFFF ^^^ _BV b)) % 65536) &&& _BV b = 0 := by
  apply Nat.eq_of_testBit_eq
  intro i
  have e : (65536 : Nat) = 2 ^ 16 := by norm_num
  have e2 : (0xFFFF : Nat) = 2 ^ 16 - 1 := by norm_num
  rw [_BV, Nat.one_shiftLeft, e, e2, Nat.testBit_and, Nat.testBit_mod_two_pow, Nat.testBit_and,
    Nat.testBit_xor, Nat.testBit_two_pow_sub_one, Nat.testBit_two_pow, Nat.zero_testBit]
  by_cases hib : b = i
  · subst hib; simp [hb]
  · simp [hib]

/-! ### The per-chip tables -/

/-- C2: both per-chip tables are injective on `[0,15]`: for `i ≠ j` the entries
`ledLUT[i]`, `ledLUT[j]` differ and `buttonLUT[i]`, `buttonLUT[j]` differ, so
do the physical positions `(entry >> 4, entry & 0x0F)` they address, and each
table is a bijection from its 16 indices onto its 16 outputs. -/
theorem lut_injective :
    (∀ i j : Fin 16, i ≠ j → ledLUT i ≠ ledLUT j ∧ buttonLUT i ≠ buttonLUT j) ∧
    (∀ i j : Fin 16, i ≠ j →
      (ledLUT i >>> 4, ledLUT i &&& 0x0F) ≠ (ledLUT j >>> 4, ledLUT j &&& 0x0F) ∧
      (buttonLUT i >>> 4, buttonLUT i &&& 0x0F) ≠
        (buttonLUT j >>> 4, buttonLUT j &&& 0x0F)) ∧
    Set.BijOn ledLUT Set.univ (Set.range ledLUT) ∧
    Set.BijOn buttonLUT Set.univ (Set.range buttonLUT) := by
  have h1 : ∀ i j : Fin 16, i ≠ j → ledLUT i ≠ ledLUT j ∧ buttonLUT i ≠ buttonLUT j := by
    decide
  have h2 : ∀ i j : Fin 16, i ≠ j →
      (ledLUT i >>> 4, ledLUT i &&& 0x0F) ≠ (ledLUT j >>> 4, ledLUT j &&& 0x0F) ∧
      (buttonLUT i >>> 4, buttonLUT i &&& 0x0F) ≠
        (buttonLUT j >>> 4, buttonLUT j &&& 0x0F) := by
    decide
  have inj1 : Function.Injective ledLUT := fun i j h => by
    by_contra hij; exact (h1 i j hij).1 h
  have inj2 : Function.Injective buttonLUT := fun i j h => by
    by_contra hij; exact (h1 i j hij).2 h
  refine ⟨h1, h2, ?_, ?_⟩
  · exact ⟨fun i _ => ⟨i, rfl⟩, inj1.injOn, fun y hy => by
      obtain ⟨i, rfl⟩ := hy; exact ⟨i, trivial, rfl⟩⟩
  · exact ⟨fun i _ => ⟨i, rfl⟩, inj2.injOn, fun y hy => by
      obtain ⟨i, rfl⟩ := hy; exact ⟨i, trivial, rfl⟩⟩

theorem lut_injective_witness :
    (ledLUT 0 ≠ ledLUT 15 ∧ buttonLUT 0 ≠ buttonLUT 15) ∧
    ((ledLUT 3 >>> 4, ledLUT 3 &&& 0x0F) ≠ (ledLUT 2 >>> 4, ledLUT 2 &&& 0x0F) ∧
      (buttonLUT 3 >>> 4, buttonLUT 3 &&& 0x0F) ≠ (buttonLUT 2 >>> 4, buttonLUT 2 &&& 0x0F)) :=
  ⟨lut_injective.1 0 15 (by decide), lut_injective.2.1 3 2 (by decide)⟩

/-! ### The single-chip driver -/

/-- C3: the display buffer is read-your-write with no flush in between (the
LED operations never touch the bus): for every driver state and every `i` in
`[0,15]`, `isLED(i)` is true right after `setLED(i)`, and false after
`setLED(i)` followed by `clrLED(i)`. -/
theorem setLED_isLED_read_your_write (m : Grid8x8) (i : Nat) (hi : i ≤ 15) :
    (m.setLED i).isLED i = true ∧ ((m.setLED i).clrLED i).isLED i = false := by
  have hn : ¬ i > 15 := by omega
  have hr := ledLUT_row_lt ⟨i, by omega⟩
  have hb := and_0F_lt (ledLUT ⟨i, by omega⟩)
  constructor
  · simp only [Grid8x8.isLED, Grid8x8.setLED, hn, dite_false, aget_aset_same _ _ _ hr]
    simpa using bit_set_pos _ _ hb
  · simp only [Grid8x8.isLED, Grid8x8.setLED, Grid8x8.clrLED, hn, dite_false,
      aget_aset_same _ _ _ hr]
    simpa using bit_clr_zero _ _ hb

theorem setLED_isLED_read_your_write_witness :
    (7 : Nat) ≤ 15 ∧
    (chipA.setLED 7).isLED 7 = true ∧ ((chipA.setLED 7).clrLED 7).isLED 7 = false :=
  ⟨by decide, setLED_isLED_read_your_write chipA 7 (by decide)⟩

/-- C4: for every key-state pair and every `k` (in particular every `uint8_t`
value `0..255`), on `Grid8x8`: `justPressed(k)` equals `isKeyPressed(k)` AND
NOT `wasKeyPressed(k)`, `justReleased(k)` equals NOT `isKeyPressed(k)` AND
`wasKeyPressed(k)`, and the two are never both true. The same holds on
`GridController`, in every memory, whenever the slot `k / 16` that `k` is
routed to holds a driver (for `k > 63` no slot is consulted). -/
theorem justPressed_justReleased_spec (m : Grid8x8) (g : GridController)
    (h : Nat → Grid8x8) (k : Nat)
    (hslot : ∀ s : Fin 4, s.val = k / 16 → ∃ d, g.matrices s = some d) :
    (m.justPressed k = (m.isKeyPressed k && !m.wasKeyPressed k) ∧
      m.justReleased k = (!m.isKeyPressed k && m.wasKeyPressed k) ∧
      ¬ (m.justPressed k = true ∧ m.justReleased k = true)) ∧
    ∃ p q, g.isKeyPressed h k = some p ∧ g.wasKeyPressed h k = some q ∧
      g.justPressed h k = some (p && !q) ∧ g.justReleased h k = some (!p && q) ∧
      ¬ (g.justPressed h k = some true ∧ g.justReleased h k = some true) := by
  constructor
  · refine ⟨rfl, rfl, ?_⟩
    unfold Grid8x8.justPressed Grid8x8.justReleased
    cases m.isKeyPressed k <;> cases m.wasKeyPressed k <;> simp
  · by_cases hk : k > 63
    · refine ⟨false, false, ?_⟩
      simp [GridController.justPressed, GridController.justReleased,
        GridController.isKeyPressed, GridController.wasKeyPressed, hk]
    · obtain ⟨d, hd⟩ := hslot ⟨k / 16, by omega⟩ rfl
      refine ⟨(h d).isKeyPressed (k % 16), (h d).wasKeyPressed (k % 16), ?_⟩
      simp only [GridController.justPressed, GridController.justReleased,
        GridController.isKeyPressed, GridController.wasKeyPressed, hk, dite_false, hd,
        Option.some_bind, Option.map_some', true_and]
      cases (h d).isKeyPressed (k % 16) <;> cases (h d).wasKeyPressed (k % 16) <;> simp

theorem justPressed_justReleased_spec_witness :
    (∀ s : Fin 4, s.val = 17 / 16 → ∃ d, twoChips.matrices s = some d) ∧
    ((chipB.justPressed 17 = (chipB.isKeyPressed 17 && !chipB.wasKeyPressed 17) ∧
      chipB.justReleased 17 = (!chipB.isKeyPressed 17 && chipB.wasKeyPressed 17) ∧
      ¬ (chipB.justPressed 17 = true ∧ chipB.justReleased 17 = true)) ∧
    ∃ p q, twoChips.isKeyPressed memAB 17 = some p ∧
      twoChips.wasKeyPressed memAB 17 = some q ∧
      twoChips.justPressed memAB 17 = some (p && !q) ∧
      twoChips.justReleased memAB 17 = some (!p && q) ∧
      ¬ (twoChips.justPressed memAB 17 = some true ∧
        twoChips.justReleased memAB 17 = some true)) :=
  have hslot : ∀ s : Fin 4, s.val = 17 / 16 → ∃ d, twoChips.matrices s = some d := by
    intro s hs
    have e : s = 1 := Fin.ext hs
    subst e
    exact ⟨1, rfl⟩
  ⟨hslot, justPressed_justReleased_spec chipB twoChips memAB 17 hslot⟩

theorem readSwitches_flag_iff (m : Grid8x8) (w : SoftWire) (r : Fin 6 → Nat)
    (hr : ∀ i, r i < 256) :
    (m.readSwitches w r).1 = true ↔ ∃ i, r i ≠ m.keys i := by
  simp only [Grid8x8.readSwitches, List.any_eq_true, List.mem_finRange, true_and, bne_iff_ne,
    ne_eq]
  constructor
  · rintro ⟨i, hi⟩
    exact ⟨i, fun h => hi (by rw [Nat.mod_eq_of_lt (hr i)]; exact h.symm)⟩
  · rintro ⟨i, hi⟩
    exact ⟨i, fun h => hi (by rw [Nat.mod_eq_of_lt (hr i)] at h; exact h.symm)⟩

/-- C5: single-chip scan postcondition. For every prior key state and every
six bytes `r` delivered by the bus, after `Grid8x8::readSwitches` the previous
buffer `lastkeys` equals the pre-scan current buffer in all six bytes, the
current buffer `keys` equals `r` in all six bytes, and the returned flag is
true exactly when some byte of `r` differs from the pre-scan current buffer. -/
theorem readSwitches_postcondition (m : Grid8x8) (w : SoftWire) (r : Fin 6 → Nat)
    (hr : ∀ i, r i < 256) :
    (∀ i, (m.readSwitches w r).2.1.lastkeys i = m.keys i) ∧
    (∀ i, (m.readSwitches w r).2.1.keys i = r i) ∧
    ((m.readSwitches w r).1 = true ↔ ∃ i, r i ≠ m.keys i) := by
  refine ⟨fun i => rfl, fun i => ?_, readSwitches_flag_iff m w r hr⟩
  simp [Grid8x8.readSwitches, Nat.mod_eq_of_lt (hr i)]

theorem readSwitches_postcondition_witness :
    (∀ i, busAB 0x70 i < 256) ∧
    ((∀ i, (chipB.readSwitches ⟨[]⟩ (busAB 0x70)).2.1.lastkeys i = chipB.keys i) ∧
    (∀ i, (chipB.readSwitches ⟨[]⟩ (busAB 0x70)).2.1.keys i = busAB 0x70 i) ∧
    ((chipB.readSwitches ⟨[]⟩ (busAB 0x70)).1 = true ↔ ∃ i, busAB 0x70 i ≠ chipB.keys i)) :=
  have hr : ∀ i, busAB 0x70 i < 256 := by decide
  ⟨hr, readSwitches_postcondition chipB ⟨[]⟩ (busAB 0x70) hr⟩

/-! ### The aggregator -/

theorem readSwitches_keys_of_unchanged (m : Grid8x8) (w : SoftWire) (r : Fin 6 → Nat)
    (hf : (m.readSwitches w r).1 = false) : (m.readSwitches w r).2.1.keys = m.keys := by
  funext i
  simp only [Grid8x8.readSwitches, List.any_eq_false, List.mem_finRange, true_implies,
    bne_iff_ne, ne_eq, not_not] at hf
  exact (hf i).symm

theorem scanSlot_of_changed (g : GridController) (rd : Nat → Fin 6 → Nat)
    (st : Bool × (Nat → Grid8x8) × SoftWire) (i : Fin 4) (hc : st.1 = true) :
    g.scanSlot rd st i = st := by
  unfold GridController.scanSlot
  split
  · rfl
  · simp [hc]

theorem scanSlot_addr (g : GridController) (rd : Nat → Fin 6 → Nat)
    (st : Bool × (Nat → Grid8x8) × SoftWire) (i : Fin 4) (q : Nat) :
    ((g.scanSlot rd st i).2.1 q).i2c_addr = (st.2.1 q).i2c_addr := by
  unfold GridController.scanSlot
  split
  · rfl
  · next p hp =>
    split
    · rfl
    · by_cases hqp : q = p
      · subst hqp; simp [Grid8x8.readSwitches]
      · simp [Function.update_noteq hqp]

theorem scanSlot_keys_of_unchanged (g : GridController) (rd : Nat → Fin 6 → Nat)
    (st : Bool × (Nat → Grid8x8) × SoftWire) (i : Fin 4)
    (hf : (g.scanSlot rd st i).1 = false) (q : Nat) :
    ((g.scanSlot rd st i).2.1 q).keys = (st.2.1 q).keys := by
  unfold GridController.scanSlot at hf ⊢
  split
  · rfl
  · next p hp =>
    rw [hp] at hf
    by_cases hc : st.1 = true
    · simp [hc]
    · simp only [hc, Bool.false_eq_true, if_false] at hf ⊢
      by_cases hqp : q = p
      · subst hqp
        simp only [Function.update_same]
        exact readSwitches_keys_of_unchanged _ _ _ hf
      · simp [Function.update_noteq hqp]

theorem scanSlot_flag (g : GridController) (rd : Nat → Fin 6 → Nat)
    (hrd : ∀ a i, rd a i < 256) (st : Bool × (Nat → Grid8x8) × SoftWire) (i : Fin 4) :
    (g.scanSlot rd st i).1 = true ↔
      st.1 = true ∨ ∃ p, g.matrices i = some p ∧
        ∃ j, rd (st.2.1 p).i2c_addr j ≠ (st.2.1 p).keys j := by
  unfold GridController.scanSlot
  split
  · next hn => simp [hn]
  · next p hp =>
    split
    · next hc => simp [hc]
    · next hc =>
      simp only [hp, Option.some.injEq, exists_eq_left', hc, Bool.false_eq_true, false_or]
      exact readSwitches_flag_iff (st.2.1 p) st.2.2 (rd (st.2.1 p).i2c_addr) (hrd _)

theorem scan_fold_of_changed (g : GridController) (rd : Nat → Fin 6 → Nat)
    (l : List (Fin 4)) (st : Bool × (Nat → Grid8x8) × SoftWire) (hc : st.1 = true) :
    l.foldl (g.scanSlot rd) st = st := by
  induction l with
  | nil => rfl
  | cons i l ih => rw [List.foldl_cons, scanSlot_of_changed g rd st i hc, ih]

theorem scan_fold_flag (g : GridController) (rd : Nat → Fin 6 → Nat)
    (hrd : ∀ a i, rd a i < 256) (l : List (Fin 4))
    (st : Bool × (Nat → Grid8x8) × SoftWire) :
    (l.foldl (g.scanSlot rd) st).1 = true ↔
      st.1 = true ∨ ∃ i ∈ l, ∃ p, g.matrices i = some p ∧
        ∃ j, rd (st.2.1 p).i2c_addr j ≠ (st.2.1 p).keys j := by
  induction l generalizing st with
  | nil => simp
  | cons i l ih =>
    rw [List.foldl_cons]
    cases hc : (g.scanSlot rd st i).1
    · -- slot `i` reports no change: keys and addresses are as before
      have hk := scanSlot_keys_of_unchanged g rd st i hc
      have ha := scanSlot_addr g rd st i
      have hnot := (not_congr (scanSlot_flag g rd hrd st i)).1 (by simp [hc])
      rw [not_or] at hnot
      rw [ih, hc]
      constructor
      · rintro (hh | ⟨k, hkl, p, hp, j, hj⟩)
        · cases hh
        · rw [ha, hk] at hj
          exact Or.inr ⟨k, List.mem_cons_of_mem _ hkl, p, hp, j, hj⟩
      · rintro (hh | ⟨k, hkl, p, hp, j, hj⟩)
        · exact absurd hh hnot.1
        · rcases List.mem_cons.1 hkl with e | hkl
          · subst e; exact absurd ⟨p, hp, j, hj⟩ hnot.2
          · refine Or.inr ⟨k, hkl, p, hp, j, ?_⟩
            rw [ha, hk]; exact hj
    · rw [scan_fold_of_changed g rd l _ hc, hc]
      have hflag := (scanSlot_flag g rd hrd st i).1 hc
      refine ⟨fun _ => ?_, fun _ => rfl⟩
      rcases hflag with hh | ⟨p, hp, hj⟩
      · exact Or.inl hh
      · exact Or.inr ⟨i, List.mem_cons_self _ _, p, hp, hj⟩

/-- C6: the aggregator scan at the controller `twoChips` in the memory `memAB`
on the bus `busAB`. Slot 0 is scanned and reports a change (it reads `1` over a
current byte `0`), the flag is true, and the driver of slot 1 is left exactly
as it was: its previous buffer still starts with `9`, not with the pre-scan
current byte `5`, and its current buffer still starts with `5`, not with the
byte `2` the bus holds for it; the only bus traffic goes to address `0x70`.
The present slot after the first changed one is not scanned. -/
theorem readSwitches_short_circuit :
    (twoChips.readSwitches memAB ⟨[]⟩ busAB).1 = true ∧
    (twoChips.matrices 0 = some 0 ∧
      ((twoChips.readSwitches memAB ⟨[]⟩ busAB).2.1 0).keys 0 = 1 ∧
      ((twoChips.readSwitches memAB ⟨[]⟩ busAB).2.1 0).lastkeys 0 = 0) ∧
    (twoChips.matrices 1 = some 1 ∧ memAB 1 = chipB ∧
      (twoChips.readSwitches memAB ⟨[]⟩ busAB).2.1 1 = chipB) ∧
    chipB.lastkeys 0 = 9 ∧ chipB.keys 0 = 5 ∧ busAB chipB.i2c_addr 0 = 2 ∧
    (twoChips.readSwitches memAB ⟨[]⟩ busAB).2.2.log =
      [.beginTransmission 0x70, .write 0x40, .endTransmission, .requestFrom 0x70 6] :=
  ⟨rfl, ⟨rfl, rfl, rfl⟩, ⟨rfl, rfl, rfl⟩, rfl, rfl, rfl, rfl⟩

/-- C7: `GridController::readSwitches` returns true if and only if, for at
least one present slot, the six bytes the bus holds for that driver differ
from the driver's pre-scan current key buffer. In particular a driver A that
is unchanged together with a driver B that changed gives true, and all present
drivers unchanged gives false. -/
theorem readSwitches_changed_iff (g : GridController) (h : Nat → Grid8x8) (w : SoftWire)
    (rd : Nat → Fin 6 → Nat) (hrd : ∀ a i, rd a i < 256) :
    ((g.readSwitches h w rd).1 = true ↔
      ∃ s p, g.matrices s = some p ∧ ∃ j, rd (h p).i2c_addr j ≠ (h p).keys j) ∧
    (∀ sA sB pA pB, g.matrices sA = some pA → g.matrices sB = some pB →
      (∀ j, rd (h pA).i2c_addr j = (h pA).keys j) →
      (∃ j, rd (h pB).i2c_addr j ≠ (h pB).keys j) →
      (g.readSwitches h w rd).1 = true) ∧
    ((∀ s p, g.matrices s = some p → ∀ j, rd (h p).i2c_addr j = (h p).keys j) →
      (g.readSwitches h w rd).1 = false) := by
  have key : (g.readSwitches h w rd).1 = true ↔
      ∃ s p, g.matrices s = some p ∧ ∃ j, rd (h p).i2c_addr j ≠ (h p).keys j := by
    unfold GridController.readSwitches
    rw [scan_fold_flag g rd hrd]
    constructor
    · rintro (hh | ⟨s, _, p, hp, hj⟩)
      · simp at hh
      · exact ⟨s, p, hp, hj⟩
    · rintro ⟨s, p, hp, hj⟩
      refine Or.inr ⟨s, ?_, p, hp, hj⟩
      fin_cases s <;> simp
  refine ⟨key, ?_, ?_⟩
  · intro sA sB pA pB _ hB _ hj
    exact key.2 ⟨sB, pB, hB, hj⟩
  · intro hall
    rw [← Bool.not_eq_true, key]
    rintro ⟨s, p, hp, j, hj⟩
    exact hj (hall s p hp j)

theorem readSwitches_changed_iff_witness :
    (∀ a i, busAB a i < 256) ∧
    ((twoChips.readSwitches memAB ⟨[]⟩ busAB).1 = true ↔
      ∃ s p, twoChips.matrices s = some p ∧
        ∃ j, busAB (memAB p).i2c_addr j ≠ (memAB p).keys j) :=
  have hrd : ∀ a i, busAB a i < 256 := by
    intro a i
    unfold busAB
    split <;> revert i <;> decide
  ⟨hrd, (readSwitches_changed_iff twoChips memAB ⟨[]⟩ busAB hrd).1⟩

/-- C8, as stated, fails when two slots share a driver. At the controller
`sharedChip`, whose slots 0 and 1 both point to the driver at address 0,
`setLED(0)` is routed to slot 0 and changes the driver of slot 1 as well:
`isLED(16)`, routed to slot 1, is false before the call and true after it. -/
theorem routing_shared_driver :
    sharedChip.matrices 0 = some 0 ∧ sharedChip.matrices 1 = some 0 ∧
    sharedChip.isLED memAB 16 = some false ∧
    ∃ h', sharedChip.setLED memAB 0 = some h' ∧ sharedChip.isLED h' 16 = some true ∧
      h' 0 ≠ memAB 0 := by
  refine ⟨rfl, rfl, rfl, _, rfl, rfl, fun e => ?_⟩
  have hled := congrArg (fun d => Grid8x8.isLED d 0) e
  revert hled
  decide

/-- C8, amended: partitioning rule. For every memory and every `k` in `[0,63]`
whose slot `k / 16` points to a driver `h p`, the aggregator operations `isLED`,
`isKeyPressed`, `wasKeyPressed` return what the same `Grid8x8` operation
returns on that driver at the local index `k % 16` (they return a flag only and
change no state), and `setLED`, `clrLED` replace that driver by the result of
the same `Grid8x8` operation at `k % 16` and leave every other driver object as
it was: the drivers of the other three slots are unchanged whenever they are
objects other than the driver of slot `k / 16`. -/
theorem routing_partition (g : GridController) (h : Nat → Grid8x8) (k : Nat) (hk : k ≤ 63)
    (s : Fin 4) (hs : s.val = k / 16) (p : Nat) (hp : g.matrices s = some p) :
    g.isLED h k = some ((h p).isLED (k % 16)) ∧
    g.isKeyPressed h k = some ((h p).isKeyPressed (k % 16)) ∧
    g.wasKeyPressed h k = some ((h p).wasKeyPressed (k % 16)) ∧
    (∃ h', g.setLED h k = some h' ∧ h' p = (h p).setLED (k % 16) ∧
      (∀ q, q ≠ p → h' q = h q) ∧
      ∀ t q, t ≠ s → g.matrices t = some q → q ≠ p → h' q = h q) ∧
    (∃ h', g.clrLED h k = some h' ∧ h' p = (h p).clrLED (k % 16) ∧
      (∀ q, q ≠ p → h' q = h q) ∧
      ∀ t q, t ≠ s → g.matrices t = some q → q ≠ p → h' q = h q) := by
  have hn : ¬ k > 63 := by omega
  have e : (⟨k / 16, by omega⟩ : Fin 4) = s := Fin.ext hs.symm
  refine ⟨?_, ?_, ?_, ?_, ?_⟩
  · simp [GridController.isLED, hn, e, hp]
  · simp [GridController.isKeyPressed, hn, e, hp]
  · simp [GridController.wasKeyPressed, hn, e, hp]
  · refine ⟨Function.update h p ((h p).setLED (k % 16)), ?_, ?_, ?_, ?_⟩
    · simp [GridController.setLED, hn, e, hp]
    · simp
    · intro q hq; exact Function.update_noteq hq _ _
    · intro t q _ _ hq; exact Function.update_noteq hq _ _
  · refine ⟨Function.update h p ((h p).clrLED (k % 16)), ?_, ?_, ?_, ?_⟩
    · simp [GridController.clrLED, hn, e, hp]
    · simp
    · intro q hq; exact Function.update_noteq hq _ _
    · intro t q _ _ hq; exact Function.update_noteq hq _ _

theorem routing_partition_witness :
    ((17 : Nat) ≤ 63 ∧ ((1 : Fin 4)).val = 17 / 16 ∧ fourChips.matrices 1 = some 1) ∧
    (fourChips.isLED memFour 17 = some ((memFour 1).isLED (17 % 16)) ∧
    fourChips.isKeyPressed memFour 17 = some ((memFour 1).isKeyPressed (17 % 16)) ∧
    fourChips.wasKeyPressed memFour 17 = some ((memFour 1).wasKeyPressed (17 % 16)) ∧
    (∃ h', fourChips.setLED memFour 17 = some h' ∧
      h' 1 = (memFour 1).setLED (17 % 16) ∧
      (∀ q, q ≠ 1 → h' q = memFour q) ∧
      ∀ t q, t ≠ 1 → fourChips.matrices t = some q → q ≠ 1 → h' q = memFour q) ∧
    (∃ h', fourChips.clrLED memFour 17 = some h' ∧
      h' 1 = (memFour 1).clrLED (17 % 16) ∧
      (∀ q, q ≠ 1 → h' q = memFour q) ∧
      ∀ t q, t ≠ 1 → fourChips.matrices t = some q → q ≠ 1 → h' q = memFour q)) :=
  ⟨⟨by decide, rfl, rfl⟩, routing_partition fourChips memFour 17 (by decide) 1 rfl 1 rfl⟩

/-- C9: empty slots at the controller `oneChip`, whose slot 1 is null. For
`k = 16`, routed to slot 1, each of `isLED`, `isKeyPressed`, `wasKeyPressed`,
`justPressed`, `justReleased`, `setLED`, `clrLED` makes its member call through
the null pointer: none of them yields `false` or a memory state. -/
theorem null_slot_dereferenced :
    oneChip.matrices 1 = none ∧
    oneChip.isLED memAB 16 = none ∧ oneChip.isKeyPressed memAB 16 = none ∧
    oneChip.wasKeyPressed memAB 16 = none ∧ oneChip.justPressed memAB 16 = none ∧
    oneChip.justReleased memAB 16 = none ∧ oneChip.setLED memAB 16 = none ∧
    oneChip.clrLED memAB 16 = none :=
  ⟨rfl, rfl, rfl, rfl, rfl, rfl, rfl, rfl⟩

/-- C10: out-of-range inputs give the documented defaults and change nothing.
For every `i > 15`, `Grid8x8::isLED(i)`, `isKeyPressed(i)`, `wasKeyPressed(i)`
return false and `setLED(i)`, `clrLED(i)` leave the driver as it was; for every
`k > 63` the `GridController` versions return false and leave every driver as
it was; for every `x > 7` and every `y`, `xy2i(x,y)` returns 255; for every
`j > 63`, `i2xy(j)` yields `(255,255)`. -/
theorem out_of_range_defaults (m : Grid8x8) (g : GridController) (h : Nat → Grid8x8)
    (i k x y j : Nat) (hi : i > 15) (hk : k > 63) (hx : x > 7) (hj : j > 63) :
    (m.isLED i = false ∧ m.isKeyPressed i = false ∧ m.wasKeyPressed i = false ∧
      m.setLED i = m ∧ m.clrLED i = m) ∧
    (g.isLED h k = some false ∧ g.isKeyPressed h k = some false ∧
      g.wasKeyPressed h k = some false ∧ g.setLED h k = some h ∧ g.clrLED h k = some h) ∧
    GridController.xy2i x y = some 255 ∧ GridController.i2xy j = (255, 255) := by
  simp [Grid8x8.isLED, Grid8x8.isKeyPressed, Grid8x8.wasKeyPressed, Grid8x8.setLED,
    Grid8x8.clrLED, GridController.isLED, GridController.isKeyPressed,
    GridController.wasKeyPressed, GridController.setLED, GridController.clrLED,
    GridController.xy2i, GridController.i2xy, hi, hk, hx, hj]

theorem out_of_range_defaults_witness :
    ((16 : Nat) > 15 ∧ (64 : Nat) > 63 ∧ (8 : Nat) > 7 ∧ (64 : Nat) > 63) ∧
    ((chipB.isLED 16 = false ∧ chipB.isKeyPressed 16 = false ∧
      chipB.wasKeyPressed 16 = false ∧ chipB.setLED 16 = chipB ∧ chipB.clrLED 16 = chipB) ∧
    (twoChips.isLED memAB 64 = some false ∧ twoChips.isKeyPressed memAB 64 = some false ∧
      twoChips.wasKeyPressed memAB 64 = some false ∧
      twoChips.setLED memAB 64 = some memAB ∧ twoChips.clrLED memAB 64 = some memAB) ∧
    GridController.xy2i 8 3 = some 255 ∧ GridController.i2xy 64 = (255, 255)) :=
  ⟨⟨by decide, by decide, by decide, by decide⟩,
    out_of_range_defaults chipB twoChips memAB 16 64 8 3 64 (by decide) (by decide)
      (by decide) (by decide)⟩

/-! ### Coordinate mapping: range check, tiling -/

/-- C11: `xy2i` at `x = 0, y = 8` (and at `x = 7, y = 255`). The column passes
the only range check, `x > 7`, and the lookup `xy2i64[y][x]` is made with a row
outside the 8x8 table: the call does not yield the marker 255. -/
theorem xy2i_row_unchecked :
    GridController.xy2i 0 8 = none ∧ GridController.xy2i 7 255 = none ∧
    GridController.xy2i 0 8 ≠ some 255 :=
  ⟨rfl, rfl, by decide⟩

/-- C17, as stated, fails: at `x = 0, y = 4` the flat index is 32, which the
partitioning rule routes to slot `32 / 16 = 2`, neither 0 nor 1; so it is not
the case that every coordinate of the surface is routed to slot 0 or 1. -/
theorem xy2i_reaches_slot_two :
    GridController.xy2i 0 4 = some 32 ∧
    ¬ (∀ x y : Nat, x ≤ 7 → y ≤ 7 →
      ∃ i, GridController.xy2i x y = some i ∧ (i / 16 = 0 ∨ i / 16 = 1) ∧ i < 32) := by
  refine ⟨rfl, fun h => ?_⟩
  obtain ⟨i, hi, _, hlt⟩ := h 0 4 (by decide) (by decide)
  have e : GridController.xy2i 0 4 = some 32 := rfl
  rw [e] at hi
  have hi32 : 32 = i := Option.some.inj hi
  omega

/-- C17, amended: the 8x8 coordinate surface spans all four chip drivers. For
every `x, y` in `[0,7]`, `xy2i(x,y)` is a flat index below 64 that the
partitioning rule routes to slot `x / 4 + 2 * (y / 4)`; it is routed to slot 0
or 1 (it is below 32) exactly when `y ≤ 3`; and each of the four slots is the
target of some coordinate. -/
theorem xy2i_four_slots :
    (∀ x y : Nat, x ≤ 7 → y ≤ 7 →
      ∃ i, GridController.xy2i x y = some i ∧ i < 64 ∧ i / 16 = x / 4 + 2 * (y / 4) ∧
        (i < 32 ↔ y ≤ 3)) ∧
    (∀ s : Fin 4, ∃ x y i, x ≤ 7 ∧ y ≤ 7 ∧ GridController.xy2i x y = some i ∧
      i / 16 = s.val) := by
  constructor
  · intro x y hx hy
    interval_cases x <;> interval_cases y <;>
      exact ⟨_, rfl, by decide, by decide, by decide⟩
  · intro s
    fin_cases s
    · exact ⟨0, 0, 0, by decide, by decide, rfl, rfl⟩
    · exact ⟨4, 0, 16, by decide, by decide, rfl, rfl⟩
    · exact ⟨0, 4, 32, by decide, by decide, rfl, rfl⟩
    · exact ⟨4, 4, 48, by decide, by decide, rfl, rfl⟩

theorem xy2i_four_slots_witness :
    ∃ i, GridController.xy2i 5 6 = some i ∧ i < 64 ∧ i / 16 = 5 / 4 + 2 * (6 / 4) ∧
      (i < 32 ↔ 6 ≤ 3) :=
  xy2i_four_slots.1 5 6 (by decide) (by decide)

/-- C20: closed form of the tiling. For every `x, y` in `[0,7]`,
`xy2i(x,y) = 16 * (x / 4 + 2 * (y / 4)) + 4 * (y % 4) + x % 4`: slot
`x / 4 + 2 * (y / 4)` covers one 4x4 quadrant and the chip-local index is
row-major inside it. For every `i` in `[0,63]`,
`i2xy(i) = (i % 4 + 4 * ((i / 16) % 2), (i % 16) / 4 + 4 * (i / 32))`. -/
theorem xy2i_closed_form :
    (∀ x y : Nat, x ≤ 7 → y ≤ 7 →
      GridController.xy2i x y =
        some (16 * ((x / 4) + 2 * (y / 4)) + 4 * (y % 4) + (x % 4))) ∧
    (∀ i : Nat, i ≤ 63 →
      GridController.i2xy i =
        ((i % 4) + 4 * ((i / 16) % 2), ((i % 16) / 4) + 4 * (i / 32))) := by
  constructor
  · intro x y hx hy
    interval_cases x <;> interval_cases y <;> rfl
  · intro i hi
    interval_cases i <;> rfl

theorem xy2i_closed_form_witness :
    GridController.xy2i 5 6 = some (16 * ((5 / 4) + 2 * (6 / 4)) + 4 * (6 % 4) + (5 % 4)) ∧
    GridController.i2xy 57 =
      ((57 % 4) + 4 * ((57 / 16) % 2), ((57 % 16) / 4) + 4 * (57 / 32)) :=
  ⟨xy2i_closed_form.1 5 6 (by decide) (by decide), xy2i_closed_form.2 57 (by decide)⟩

/-! ### Bus commands of the single-chip driver -/

theorem finRange_eight : List.finRange 8 = [0, 1, 2, 3, 4, 5, 6, 7] := by
  decide

theorem low_byte_mod (d : Nat) : (d &&& 0xFF) % 256 = d &&& 0xFF := by
  have : d &&& 0xFF ≤ 0xFF := Nat.and_le_right
  omega

theorem high_byte_mod (d : Nat) (h : d < 65536) : (d >>> 8) % 256 = d >>> 8 := by
  rw [Nat.shiftRight_eq_div_pow]
  omega

/-- C12: flush wire format. For every display buffer `d[0..7]` of 16-bit words,
`Grid8x8::writeDisplay` adds to the bus one transaction to the driver's
address carrying exactly 17 bytes: `0x00`, then for `i = 0..7` in order
`d[i] & 0xFF` followed by `d[i] >> 8`. The driver is only read (the operation
returns the bus alone), so the buffer is unchanged. From the all-zero buffer,
`setLED(0)` then `writeDisplay` sends `0x00` and 16 data bytes that are zero
except the high byte of word 3, which is `0x04`. -/
theorem writeDisplay_wire_format (m : Grid8x8) (w : SoftWire)
    (hd : ∀ i, m.displaybuffer i < 65536) :
    (m.writeDisplay w).log = w.log ++
      [.beginTransmission m.i2c_addr, .write 0x00,
       .write (m.displaybuffer 0 &&& 0xFF), .write (m.displaybuffer 0 >>> 8),
       .write (m.displaybuffer 1 &&& 0xFF), .write (m.displaybuffer 1 >>> 8),
       .write (m.displaybuffer 2 &&& 0xFF), .write (m.displaybuffer 2 >>> 8),
       .write (m.displaybuffer 3 &&& 0xFF), .write (m.displaybuffer 3 >>> 8),
       .write (m.displaybuffer 4 &&& 0xFF), .write (m.displaybuffer 4 >>> 8),
       .write (m.displaybuffer 5 &&& 0xFF), .write (m.displaybuffer 5 >>> 8),
       .write (m.displaybuffer 6 &&& 0xFF), .write (m.displaybuffer 6 >>> 8),
       .write (m.displaybuffer 7 &&& 0xFF), .write (m.displaybuffer 7 >>> 8),
       .endTransmission] ∧
    ((chipA.setLED 0).writeDisplay ⟨[]⟩).log =
      [.beginTransmission 0x70, .write 0x00,
       .write 0, .write 0, .write 0, .write 0, .write 0, .write 0, .write 0, .write 0x04,
       .write 0, .write 0, .write 0, .write 0, .write 0, .write 0, .write 0, .write 0,
       .endTransmission] := by
  refine ⟨?_, by decide⟩
  simp only [Grid8x8.writeDisplay, SoftWire.emit, finRange_eight, List.foldl_cons,
    List.foldl_nil, low_byte_mod, high_byte_mod _ (hd _), List.append_assoc,
    List.cons_append, List.nil_append]

theorem writeDisplay_wire_format_witness :
    (∀ i, (chipA.setLED 0).displaybuffer i < 65536) ∧
    ((chipA.setLED 0).writeDisplay ⟨[]⟩).log =
      [.beginTransmission 0x70, .write 0x00,
       .write 0, .write 0, .write 0, .write 0, .write 0, .write 0, .write 0, .write 0x04,
       .write 0, .write 0, .write 0, .write 0, .write 0, .write 0, .write 0, .write 0,
       .endTransmission] :=
  have hd : ∀ i, (chipA.setLED 0).displaybuffer i < 65536 := by decide
  ⟨hd, (writeDisplay_wire_format (chipA.setLED 0) ⟨[]⟩ hd).2⟩

/-- C14: brightness clamp and encoding. For every level (in particular every
`uint8_t` value), `Grid8x8::setBrightness(level)` adds to the bus one
transaction to the driver's address with the single command byte
`0xE0 | min(level, 15)`; the byte lies in `[0xE0, 0xEF]`, its low nibble is
the clamped brightness and its high nibble is `0xE`. -/
theorem setBrightness_encoding (m : Grid8x8) (w : SoftWire) (level : Nat) :
    (m.setBrightness w level).log =
      w.log ++ [.beginTransmission m.i2c_addr, .write (0xE0 ||| min level 15),
                .endTransmission] ∧
    0xE0 ≤ (0xE0 ||| min level 15) ∧ (0xE0 ||| min level 15) ≤ 0xEF ∧
    (0xE0 ||| min level 15) &&& 0x0F = min level 15 ∧
    (0xE0 ||| min level 15) >>> 4 = 0xE := by
  have hb : (if level > 15 then 15 else level) = min level 15 := by
    split <;> omega
  have hle : min level 15 ≤ 15 := Nat.min_le_right _ _
  generalize min level 15 = b at hb hle
  refine ⟨?_, ?_⟩
  · simp only [Grid8x8.setBrightness, SoftWire.emit, hb]
    interval_cases b <;> rfl
  · interval_cases b <;> decide

/-- C15: blink-rate encoding. For every rate (in particular every `uint8_t`
value), `Grid8x8::blinkRate(rate)` adds to the bus one transaction to the
driver's address with the single command byte `0x80 | 0x01 | (r << 1)`, where
`r = rate` if `rate ≤ 3` and `r = 0` otherwise; the byte is one of `0x81`,
`0x83`, `0x85`, `0x87` and its display-on bit `0x01` is set. -/
theorem blinkRate_encoding (m : Grid8x8) (w : SoftWire) (rate : Nat) :
    (m.blinkRate w rate).log =
      w.log ++ [.beginTransmission m.i2c_addr,
                .write (0x80 ||| 0x01 ||| ((if rate ≤ 3 then rate else 0) <<< 1)),
                .endTransmission] ∧
    ((0x80 ||| 0x01 ||| ((if rate ≤ 3 then rate else 0) <<< 1)) = 0x81 ∨
     (0x80 ||| 0x01 ||| ((if rate ≤ 3 then rate else 0) <<< 1)) = 0x83 ∨
     (0x80 ||| 0x01 ||| ((if rate ≤ 3 then rate else 0) <<< 1)) = 0x85 ∨
     (0x80 ||| 0x01 ||| ((if rate ≤ 3 then rate else 0) <<< 1)) = 0x87) ∧
    (0x80 ||| 0x01 ||| ((if rate ≤ 3 then rate else 0) <<< 1)) &&& 0x01 = 0x01 := by
  have hb : (if rate > 3 then 0 else rate) = (if rate ≤ 3 then rate else 0) := by
    split <;> split <;> omega
  have hle : (if rate ≤ 3 then rate else 0) ≤ 3 := by split <;> omega
  generalize (if rate ≤ 3 then rate else 0) = b at hb hle
  refine ⟨?_, ?_⟩
  · simp only [Grid8x8.blinkRate, SoftWire.emit, hb]
    interval_cases b <;> rfl
  · interval_cases b <;> decide

theorem clear_clear (m : Grid8x8) : m.clear.clear = m.clear := rfl

theorem clear_fold_frame (g : GridController) (l : List (Fin 4)) (h : Nat → Grid8x8)
    (q : Nat) (hq : ∀ i ∈ l, g.matrices i ≠ some q) :
    (l.foldl (fun h (i : Fin 4) => match g.matrices i with
      | none => h
      | some p => Function.update h p (h p).clear) h) q = h q := by
  induction l generalizing h with
  | nil => rfl
  | cons i l ih =>
    rw [List.foldl_cons, ih _ (fun k hk => hq k (List.mem_cons_of_mem _ hk))]
    have hi := hq i (List.mem_cons_self _ _)
    generalize g.matrices i = o at hi
    cases o with
    | none => rfl
    | some p =>
      have hne : q ≠ p := fun e => hi (by rw [e])
      exact Function.update_noteq hne _ _

theorem clear_fold_hit (g : GridController) (l : List (Fin 4)) (h : Nat → Grid8x8)
    (q : Nat) (hq : ∃ i ∈ l, g.matrices i = some q) :
    (l.foldl (fun h (i : Fin 4) => match g.matrices i with
      | none => h
      | some p => Function.update h p (h p).clear) h) q = (h q).clear := by
  induction l generalizing h with
  | nil => simp at hq
  | cons i l ih =>
    rw [List.foldl_cons]
    have hstep : ∀ (o : Option Nat),
        ((match o with
          | none => h
          | some p => Function.update h p (h p).clear) q = h q ∧ o ≠ some q) ∨
        (match o with
          | none => h
          | some p => Function.update h p (h p).clear) q = (h q).clear := by
      intro o
      cases o with
      | none => exact Or.inl ⟨rfl, by simp⟩
      | some p =>
        by_cases hqp : q = p
        · subst hqp; exact Or.inr (by simp)
        · exact Or.inl ⟨Function.update_noteq hqp _ _, fun e => hqp (Option.some.inj e).symm⟩
    by_cases hl : ∃ k ∈ l, g.matrices k = some q
    · rw [ih _ hl]
      rcases hstep (g.matrices i) with ⟨e, _⟩ | e
      · rw [e]
      · rw [e, clear_clear]
    · have hfr : ∀ k ∈ l, g.matrices k ≠ some q := fun k hk e => hl ⟨k, hk, e⟩
      rw [clear_fold_frame g l _ q hfr]
      obtain ⟨k, hk, hkq⟩ := hq
      rcases List.mem_cons.1 hk with e | hk
      · subst e
        rcases hstep (g.matrices k) with ⟨_, hne⟩ | e
        · exact absurd hkq hne
        · exact e
      · exact absurd hkq (hfr k hk)

/-- C16: `Grid8x8::clear` zeroes the whole display buffer and does nothing
else. For every prior state, after `clear()` all 8 words are 0, `isLED(i)` is
false for every `i`, and the key buffers and the bus address are as before;
the operation does not take the bus, so no byte is sent. `GridController::clear`
applies it to the driver of every present slot and leaves every other driver
object as it was. -/
theorem clear_zeroes_display (m : Grid8x8) (g : GridController) (h : Nat → Grid8x8) :
    (∀ i, m.clear.displaybuffer i = 0) ∧ (∀ i, m.clear.isLED i = false) ∧
    m.clear.keys = m.keys ∧ m.clear.lastkeys = m.lastkeys ∧ m.clear.i2c_addr = m.i2c_addr ∧
    (∀ s p, g.matrices s = some p → g.clear h p = (h p).clear) ∧
    (∀ q, (∀ s, g.matrices s ≠ some q) → g.clear h q = h q) := by
  refine ⟨fun _ => rfl, fun i => ?_, rfl, rfl, rfl, fun s p hp => ?_, fun q hq => ?_⟩
  · unfold Grid8x8.isLED
    split
    · rfl
    · simp [Grid8x8.clear, aget]
  · apply clear_fold_hit g [0, 1, 2, 3] h p
    exact ⟨s, by fin_cases s <;> simp, hp⟩
  · exact clear_fold_frame g [0, 1, 2, 3] h q (fun i _ => hq i)

/-! ### Group scans -/

theorem and_BV_eq_zero_iff (x o : Nat) : x &&& _BV o = 0 ↔ x.testBit o = false := by
  rw [_BV, Nat.one_shiftLeft, Nat.and_two_pow]
  cases x.testBit o <;> simp

theorem and_BV_bne (x o : Nat) : (x &&& _BV o != 0) = x.testBit o := by
  have h := and_BV_eq_zero_iff x o
  cases hb : x.testBit o
  · simp [h.2 hb]
  · have : x &&& _BV o ≠ 0 := fun e => by rw [h.1 e] at hb; cases hb
    simpa using this

theorem and_BV_pos (x o : Nat) : decide (x &&& _BV o > 0) = x.testBit o := by
  rw [← and_BV_bne x o]
  by_cases h : x &&& _BV o = 0
  · simp [h]
  · have : 0 < x &&& _BV o := Nat.pos_of_ne_zero h
    simp [h, this]

theorem buttonLUT_bit_le7 (i : Fin 16) : buttonLUT i &&& 0x0F ≤ 7 := by
  revert i; decide

theorem aget_mod256 (r : Fin 6 → Nat) (b : Nat) :
    aget (fun i => r i % 256) b = aget r b % 256 := by
  unfold aget
  split <;> rfl

theorem testBit_mod256 (x o : Nat) (ho : o ≤ 7) : (x % 256).testBit o = x.testBit o := by
  have e : (256 : Nat) = 2 ^ 8 := by norm_num
  rw [e, Nat.testBit_mod_two_pow]
  simp [Nat.lt_succ_of_le ho]

/-- C19: edge detection across a scan. For every driver state with current
buffer `c = keys`, every six values `r` read by `Grid8x8::readSwitches` and
every key `k` in `[0,15]`, with `(b, o) = (buttonLUT[k] >> 4, buttonLUT[k] & 15)`:
after the scan `justPressed(k)` is true iff bit `o` of `r[b]` is 1 and bit `o`
of `c[b]` is 0, and `justReleased(k)` is true iff bit `o` of `r[b]` is 0 and bit
`o` of `c[b]` is 1. A second scan that reads the same `r` returns false and
leaves `justPressed(k)` and `justReleased(k)` false for every `k`. -/
theorem scan_edge_detection (m : Grid8x8) (w w2 : SoftWire) (r : Fin 6 → Nat) :
    (∀ k : Fin 16,
      (((m.readSwitches w r).2.1.justPressed k.val = true ↔
        (aget r (buttonLUT k >>> 4)).testBit (buttonLUT k &&& 15) = true ∧
        (aget m.keys (buttonLUT k >>> 4)).testBit (buttonLUT k &&& 15) = false) ∧
      ((m.readSwitches w r).2.1.justReleased k.val = true ↔
        (aget r (buttonLUT k >>> 4)).testBit (buttonLUT k &&& 15) = false ∧
        (aget m.keys (buttonLUT k >>> 4)).testBit (buttonLUT k &&& 15) = true))) ∧
    (((m.readSwitches w r).2.1.readSwitches w2 r).1 = false ∧
      ∀ k : Nat,
        ((m.readSwitches w r).2.1.readSwitches w2 r).2.1.justPressed k = false ∧
        ((m.readSwitches w r).2.1.readSwitches w2 r).2.1.justReleased k = false) := by
  constructor
  · intro k
    have hk : ¬ k.val > 15 := by omega
    have hbit := buttonLUT_bit_le7 k
    have hp : (m.readSwitches w r).2.1.isKeyPressed k.val =
        (aget r (buttonLUT k >>> 4)).testBit (buttonLUT k &&& 15) := by
      simp only [Grid8x8.isKeyPressed, Grid8x8.readSwitches, hk, dite_false, Fin.eta,
        aget_mod256, and_BV_bne]
      exact testBit_mod256 _ _ hbit
    have hq : (m.readSwitches w r).2.1.wasKeyPressed k.val =
        (aget m.keys (buttonLUT k >>> 4)).testBit (buttonLUT k &&& 15) := by
      simp only [Grid8x8.wasKeyPressed, Grid8x8.readSwitches, hk, dite_false, Fin.eta,
        and_BV_bne]
    simp only [Grid8x8.justPressed, Grid8x8.justReleased, hp, hq]
    constructor <;>
      cases (aget r (buttonLUT k >>> 4)).testBit (buttonLUT k &&& 15) <;>
      cases (aget m.keys (buttonLUT k >>> 4)).testBit (buttonLUT k &&& 15) <;> simp
  · constructor
    · simp [Grid8x8.readSwitches]
    · intro k
      have e : ((m.readSwitches w r).2.1.readSwitches w2 r).2.1.keys =
          ((m.readSwitches w r).2.1.readSwitches w2 r).2.1.lastkeys := rfl
      have hpq : ((m.readSwitches w r).2.1.readSwitches w2 r).2.1.isKeyPressed k =
          ((m.readSwitches w r).2.1.readSwitches w2 r).2.1.wasKeyPressed k := by
        unfold Grid8x8.isKeyPressed Grid8x8.wasKeyPressed
        rw [e]
      simp only [Grid8x8.justPressed, Grid8x8.justReleased, hpq]
      cases ((m.readSwitches w r).2.1.readSwitches w2 r).2.1.wasKeyPressed k <;> simp

/-! ### Independence of the LED operations -/

theorem aset_apply_same {n : Nat} (a : Fin n → Nat) (k : Fin n) (v : Nat) :
    aset a k.val v k = v := by
  simp [aset]

theorem aset_apply_ne {n : Nat} (a : Fin n → Nat) (i v : Nat) (k : Fin n) (h : i ≠ k.val) :
    aset a i v k = a k := by
  unfold aset
  split
  · rw [Function.update_noteq]
    intro e
    exact h (congrArg Fin.val e).symm
  · rfl

theorem aget_val {n : Nat} (a : Fin n → Nat) (k : Fin n) : aget a k.val = a k := by
  simp [aget]

theorem testBit_set_other (v b c : Nat) (hc : c < 16) (hbc : b ≠ c) :
    (((v ||| _BV b) % 65536).testBit c) = v.testBit c := by
  have e : (65536 : Nat) = 2 ^ 16 := by norm_num
  rw [_BV, Nat.one_shiftLeft, e, Nat.testBit_mod_two_pow, Nat.testBit_or,
    Nat.testBit_two_pow_of_ne hbc]
  simp [hc]

theorem testBit_clr_other (v b c : Nat) (hc : c < 16) (hbc : b ≠ c) :
    (((v &&& (0xFFFF ^^^ _BV b)) % 65536).testBit c) = v.testBit c := by
  have e : (65536 : Nat) = 2 ^ 16 := by norm_num
  have e2 : (0xFFFF : Nat) = 2 ^ 16 - 1 := by norm_num
  rw [_BV, Nat.one_shiftLeft, e, e2, Nat.testBit_mod_two_pow, Nat.testBit_and,
    Nat.testBit_xor, Nat.testBit_two_pow_sub_one, Nat.testBit_two_pow_of_ne hbc]
  simp [hc]

theorem ledLUT_pos_ne (i j : Fin 16) (h : i ≠ j) :
    ledLUT i >>> 4 ≠ ledLUT j >>> 4 ∨ ledLUT i &&& 0x0F ≠ ledLUT j &&& 0x0F := by
  revert i j; decide

theorem setLED_bits_frame (m : Grid8x8) (i : Fin 16) (wd : Fin 8) (c : Nat) (hc : c < 16)
    (hne : wd.val ≠ ledLUT i >>> 4 ∨ c ≠ ledLUT i &&& 15) :
    ((m.setLED i.val).displaybuffer wd).testBit c = (m.displaybuffer wd).testBit c ∧
    ((m.clrLED i.val).displaybuffer wd).testBit c = (m.displaybuffer wd).testBit c := by
  have hi : ¬ i.val > 15 := by omega
  simp only [Grid8x8.setLED, Grid8x8.clrLED, hi, dite_false, Fin.eta]
  by_cases hw : ledLUT i >>> 4 = wd.val
  · have hcb : ledLUT i &&& 15 ≠ c := by
      rcases hne with h | h
      · exact absurd hw.symm h
      · exact fun e => h e.symm
    rw [hw, aset_apply_same, aset_apply_same, aget_val]
    exact ⟨testBit_set_other _ _ _ hc hcb, testBit_clr_other _ _ _ hc hcb⟩
  · rw [aset_apply_ne _ _ _ _ hw, aset_apply_ne _ _ _ _ hw]
    exact ⟨rfl, rfl⟩

theorem isLED_eq_testBit (m : Grid8x8) (j : Fin 16) :
    m.isLED j.val =
      (m.displaybuffer ⟨ledLUT j >>> 4, ledLUT_row_lt j⟩).testBit (ledLUT j &&& 15) := by
  have hj : ¬ j.val > 15 := by omega
  simp only [Grid8x8.isLED, hj, dite_false, Fin.eta, and_BV_pos]
  simp [aget, ledLUT_row_lt j]

theorem setLED_isLED_other (m : Grid8x8) (i j : Nat) (hi : i ≤ 15) (hj : j ≤ 15)
    (hij : i ≠ j) :
    (m.setLED i).isLED j = m.isLED j ∧ (m.clrLED i).isLED j = m.isLED j := by
  have h := ledLUT_pos_ne ⟨i, by omega⟩ ⟨j, by omega⟩ (fun e => hij (Fin.mk.inj e))
  have hb : ledLUT ⟨j, by omega⟩ &&& 15 < 16 := and_0F_lt _
  have hf := setLED_bits_frame m ⟨i, by omega⟩
    ⟨ledLUT ⟨j, by omega⟩ >>> 4, ledLUT_row_lt _⟩ (ledLUT ⟨j, by omega⟩ &&& 15) hb
    (by rcases h with h | h
        · exact Or.inl (fun e => h e.symm)
        · exact Or.inr (fun e => h e.symm))
  have e1 := isLED_eq_testBit (m.setLED i) ⟨j, by omega⟩
  have e2 := isLED_eq_testBit (m.clrLED i) ⟨j, by omega⟩
  have e3 := isLED_eq_testBit m ⟨j, by omega⟩
  simp only at e1 e2 e3 hf
  rw [e1, e2, e3]
  exact hf

/-! ### Independence of the LED operations across slots -/

theorem update_isLED_other (g : GridController) (h : Nat → Grid8x8) (s : Fin 4)
    (p : Nat) (d : Grid8x8) (j : Nat) (hp : g.matrices s = some p)
    (hdist : ∀ t : Fin 4, g.matrices t = some p → t = s)
    (hd : ∀ l, l ≤ 15 → s.val = j / 16 → l = j % 16 → d.isLED l = (h p).isLED l) :
    g.isLED (Function.update h p d) j = g.isLED h j := by
  by_cases hj : j > 63
  · simp [GridController.isLED, hj]
  · rcases hq : g.matrices ⟨j / 16, by omega⟩ with _ | q
    · simp only [GridController.isLED, hj, dite_false, hq]
    · simp only [GridController.isLED, hj, dite_false, hq]
      by_cases hqp : q = p
      · subst hqp
        have hts := hdist _ hq
        have hv : s.val = j / 16 := by rw [← hts]
        simp only [Function.update_same]
        rw [hd (j % 16) (by omega) hv rfl]
      · simp only [Function.update_noteq hqp]

/-- C18: the LED operations are independent across indices. For a controller
whose four slots hold four distinct drivers, in every memory, for every flat
index `k` in `[0,63]` and every other index `j` (in particular `j` in
`[0,63]`), `GridController::setLED(k)` and `clrLED(k)` succeed and leave
`isLED(j)` as it was. At chip level, for every driver, every `i` in `[0,15]`,
every word `wd` of the display buffer and every bit position `c < 16` other
than `(ledLUT[i] >> 4, ledLUT[i] & 15)`, `setLED(i)` and `clrLED(i)` leave bit
`c` of word `wd` as it was. -/
theorem led_ops_independent (g : GridController) (h : Nat → Grid8x8) (k j : Nat)
    (hall : ∀ s, ∃ p, g.matrices s = some p)
    (hdist : ∀ s t p, g.matrices s = some p → g.matrices t = some p → s = t)
    (hk : k ≤ 63) (hkj : k ≠ j) :
    ((∃ h', g.setLED h k = some h' ∧ g.isLED h' j = g.isLED h j) ∧
      (∃ h', g.clrLED h k = some h' ∧ g.isLED h' j = g.isLED h j)) ∧
    (∀ (m : Grid8x8) (i : Fin 16) (wd : Fin 8) (c : Nat), c < 16 →
      (wd.val ≠ ledLUT i >>> 4 ∨ c ≠ ledLUT i &&& 15) →
      ((m.setLED i.val).displaybuffer wd).testBit c = (m.displaybuffer wd).testBit c ∧
      ((m.clrLED i.val).displaybuffer wd).testBit c = (m.displaybuffer wd).testBit c) := by
  refine ⟨?_, fun m i wd c hc hne => setLED_bits_frame m i wd c hc hne⟩
  have hn : ¬ k > 63 := by omega
  obtain ⟨p, hp⟩ := hall ⟨k / 16, by omega⟩
  have hd : ∀ t : Fin 4, g.matrices t = some p → t = ⟨k / 16, by omega⟩ :=
    fun t ht => hdist t _ p ht hp
  constructor
  · refine ⟨Function.update h p ((h p).setLED (k % 16)), ?_, ?_⟩
    · simp [GridController.setLED, hn, hp]
    · apply update_isLED_other g h _ p _ j hp hd
      intro l hl hs e
      subst e
      exact (setLED_isLED_other (h p) (k % 16) (j % 16) (by omega) hl
        (by simp only at hs; omega)).1
  · refine ⟨Function.update h p ((h p).clrLED (k % 16)), ?_, ?_⟩
    · simp [GridController.clrLED, hn, hp]
    · apply update_isLED_other g h _ p _ j hp hd
      intro l hl hs e
      subst e
      exact (setLED_isLED_other (h p) (k % 16) (j % 16) (by omega) hl
        (by simp only at hs; omega)).2

theorem led_ops_independent_witness :
    ((∀ s, ∃ p, fourChips.matrices s = some p) ∧
      (∀ s t p, fourChips.matrices s = some p → fourChips.matrices t = some p → s = t) ∧
      (17 : Nat) ≤ 63 ∧ (17 : Nat) ≠ 18) ∧
    ((∃ h', fourChips.setLED memFour 17 = some h' ∧
        fourChips.isLED h' 18 = fourChips.isLED memFour 18) ∧
      (∃ h', fourChips.clrLED memFour 17 = some h' ∧
        fourChips.isLED h' 18 = fourChips.isLED memFour 18)) :=
  have hall : ∀ s, ∃ p, fourChips.matrices s = some p := by
    intro s; fin_cases s <;> exact ⟨_, rfl⟩
  have hdist : ∀ s t p, fourChips.matrices s = some p → fourChips.matrices t = some p →
      s = t := by
    intro s t p hs ht
    have e : fourChips.matrices s = fourChips.matrices t := hs.trans ht.symm
    have key : ∀ a b : Fin 4, fourChips.matrices a = fourChips.matrices b → a = b := by
      decide
    exact key s t e
  ⟨⟨hall, hdist, by decide, by decide⟩,
    (led_ops_independent fourChips memFour 17 18 hall hdist (by decide) (by decide)).1⟩
